import Mathlib

/-!
# Verification of the ETL engine (`src/lib/etl/etl-engine.ts`)

A shallow embedding of the ETL engine of the webhook-capture repository.
JavaScript objects are modelled as association lists of `JValue`s, machine
`Date` values as epoch milliseconds (`Int`, with `Option Int` standing for a
possibly-NaN parse result), and the storage / network / date-parsing / regex
collaborators as explicit function parameters, since they are outside the
verified core.  Modelling notes:

* JS `Array.prototype.sort` is stable; it is embedded as Mathlib's stable
  `List.insertionSort`.
* JS strict equality (`===`) on two object or array values is reference
  equality; the embedding returns `false` there, which is faithful whenever
  the two sides are distinct objects (always the case in the code paths the
  theorems below talk about, where one side is primitive data).
* `new RegExp(p).test(v)` wrapped in the engine's `try/catch` (an invalid
  pattern counts as "no match") is a single oracle `regexTest p v : Bool`.
* Console logging is ignored; `new Date().toISOString()` stamps are modelled
  by `Nat` clock values supplied by the caller.
-/

/-- A JavaScript runtime value, as far as the ETL engine inspects them. -/
inductive JValue where
  | jundef : JValue
  | jnull : JValue
  | jbool : Bool → JValue
  | jnum : Int → JValue
  | jstr : String → JValue
  | jdate : Int → JValue
  | jarr : List JValue → JValue
  | jobj : List (String × JValue) → JValue

open JValue

/-- A JavaScript object: an insertion-ordered association list of properties. -/
abbrev JObj := List (String × JValue)

/-- JS truthiness: `undefined`, `null`, `false`, `0`, `""` are falsy; every
object (including `[]` and `{}`) and every `Date` is truthy. -/
def jsTruthy : JValue → Bool
  | jundef => false
  | jnull => false
  | jbool b => b
  | jnum n => n ≠ 0
  | jstr s => s ≠ ""
  | jdate _ => true
  | jarr _ => true
  | jobj _ => true

/-- JS strict equality `===` on the values the engine compares.  Primitives
compare structurally; object/array/date values compare by reference, which we
model as `false` (the compared sides are never the same reference in the code
paths under verification). -/
def jsStrictEq : JValue → JValue → Bool
  | jundef, jundef => true
  | jnull, jnull => true
  | jbool a, jbool b => a = b
  | jnum a, jnum b => a = b
  | jstr a, jstr b => a = b
  | _, _ => false

/-- Property read `o[k]`: the first binding of `k`, or `undefined`. -/
def getProp (o : JObj) (k : String) : JValue :=
  match o with
  | [] => jundef
  | (k', v) :: rest => if k' = k then v else getProp rest k

/-- Property write `o[k] = v`: overwrite in place, else append (JS key order). -/
def setProp (o : JObj) (k : String) (v : JValue) : JObj :=
  match o with
  | [] => [(k, v)]
  | (k', v') :: rest => if k' = k then (k', v) :: rest else (k', v') :: setProp rest k v

/-- Property removal `delete o[k]`. -/
def delProp (o : JObj) (k : String) : JObj :=
  o.filter (fun p => p.1 ≠ k)

/-- The string a value is coerced to when used as a property name.  Every use
in the engine passes a string already; the remaining cases follow JS
`ToString` on primitives and are unused by the theorems below. -/
def jsToPropKey : JValue → String
  | jstr s => s
  | jnum n => toString n
  | jbool b => toString b
  | jnull => "null"
  | jundef => "undefined"
  | jdate _ => "[object Date]"
  | jarr _ => ""
  | jobj _ => "[object Object]"

/-- JS `hay.includes(sub)` (substring containment). -/
def jsIncludes (hay sub : String) : Bool :=
  sub = "" || (hay.splitOn sub).length != 1

/-- Comparison `x < b` where `b` is a possibly-NaN number (`none` = NaN): any comparison
with NaN is `false`. -/
def jsLtOpt (x : Int) (b : Option Int) : Bool :=
  match b with
  | some y => x < y
  | none => false

/-- Comparison `x > b` with the same NaN convention. -/
def jsGtOpt (x : Int) (b : Option Int) : Bool :=
  match b with
  | some y => y < x
  | none => false

/-! ## The data model (`src/lib/dto/dto-mapper.ts`, `@/types/webhook`) -/

/-- A captured webhook request (`WebhookRequest`).  `timestamp` is the `Date`
value in epoch milliseconds; optional fields are `Option` (absent =
`undefined`). -/
structure WebhookRequest where
  id : String
  webhookId : String
  method : String
  path : String
  headers : List (String × String)
  body : String
  queryParams : List (String × String)
  timestamp : Int
  ip : Option String
  userAgent : Option String
  contentType : Option String
  bodySize : Int
deriving Repr, DecidableEq

/-- The `ETLFilters.dateRange` object: the TS field `end` is called `endD` here (`end` is
a Lean keyword). -/
structure DateRange where
  start : String
  endD : String
deriving Repr, DecidableEq

/-- One entry of `ETLFilters.headerConditions`.  The operator is kept as the
runtime string (`"equals" | "contains" | "regex"`); the engine's `switch` has
no default branch, so any other string leaves the condition unchecked. -/
structure HeaderCondition where
  key : String
  op : String
  value : String
deriving Repr, DecidableEq

/-- The `ETLFilters` DTO. -/
structure ETLFilters where
  webhookId : Option String := none
  dateRange : Option DateRange := none
  methods : Option (List String) := none
  contentTypes : Option (List String) := none
  ipAddresses : Option (List String) := none
  userAgents : Option (List String) := none
  bodyContains : Option String := none
  headerConditions : Option (List HeaderCondition) := none
deriving Repr, DecidableEq

section FilterEvaluator

-- Oracle for `new Date(s).getTime()`: `none` models NaN (unparsable).
variable (parseDate : String → Option Int)

-- Oracle for `try { new RegExp(p).test(v) } catch { false }`: an invalid
-- pattern is already folded into a `false` result.
variable (regexTest : String → String → Bool)

/-- The date-range block of `applyFilters` (lines 190–198): passes unless
`requestTime < startTime || requestTime > endTime`, with NaN comparisons
false.  Vacuously true when `dateRange` is absent. -/
def datePasses (f : ETLFilters) (r : WebhookRequest) : Bool :=
  match f.dateRange with
  | none => true
  | some dr =>
    !(jsLtOpt r.timestamp (parseDate dr.start) || jsGtOpt r.timestamp (parseDate dr.endD))

/-- The method block (lines 200–205). -/
def methodPasses (f : ETLFilters) (r : WebhookRequest) : Bool :=
  match f.methods with
  | none => true
  | some ms => if ms.length > 0 then ms.contains r.method else true

/-- The content-type block (lines 207–214): a missing or empty (`falsy`)
`contentType` fails when the filter is present. -/
def contentTypePasses (f : ETLFilters) (r : WebhookRequest) : Bool :=
  match f.contentTypes with
  | none => true
  | some cts =>
    if cts.length > 0 then
      match r.contentType with
      | none => false
      | some ct => if ct = "" then false else cts.any (fun c => jsIncludes ct c)
    else true

/-- The IP block (lines 216–221). -/
def ipPasses (f : ETLFilters) (r : WebhookRequest) : Bool :=
  match f.ipAddresses with
  | none => true
  | some ips =>
    if ips.length > 0 then
      match r.ip with
      | none => false
      | some ip => if ip = "" then false else ips.contains ip
    else true

/-- The user-agent block (lines 223–230). -/
def userAgentPasses (f : ETLFilters) (r : WebhookRequest) : Bool :=
  match f.userAgents with
  | none => true
  | some uas =>
    if uas.length > 0 then
      match r.userAgent with
      | none => false
      | some ua => if ua = "" then false else uas.any (fun u => jsIncludes ua u)
    else true

/-- The body-substring block (lines 232–237); an empty `bodyContains` is falsy
and skips the check. -/
def bodyPasses (f : ETLFilters) (r : WebhookRequest) : Bool :=
  match f.bodyContains with
  | none => true
  | some bc => if bc = "" then true else jsIncludes r.body bc

/-- One header condition (lines 241–260): a missing or empty header value is
an immediate failure; unknown operators fall through the `switch` unchecked. -/
def headerCondPasses (r : WebhookRequest) (c : HeaderCondition) : Bool :=
  match r.headers.lookup c.key with
  | none => false
  | some v =>
    if v = "" then false
    else
      if c.op = "equals" then v = c.value
      else if c.op = "contains" then jsIncludes v c.value
      else if c.op = "regex" then regexTest c.value v
      else true

/-- The header-conditions block (lines 239–262). -/
def headerPasses (f : ETLFilters) (r : WebhookRequest) : Bool :=
  match f.headerConditions with
  | none => true
  | some hcs =>
    if hcs.length > 0 then hcs.all (fun c => headerCondPasses regexTest r c) else true

/-- The per-record predicate of `applyFilters` (lines 189–264), with the
source's early `return false`s rendered as a cascade. -/
def matchesFilters (f : ETLFilters) (r : WebhookRequest) : Bool :=
  if !datePasses parseDate f r then false
  else if !methodPasses f r then false
  else if !contentTypePasses f r then false
  else if !ipPasses f r then false
  else if !userAgentPasses f r then false
  else if !bodyPasses f r then false
  else if !headerPasses regexTest f r then false
  else true

/-- Model of `applyFilters` (lines 186–266). -/
def applyFilters (reqs : List WebhookRequest) (fs : Option ETLFilters) :
    List WebhookRequest :=
  match fs with
  | none => reqs
  | some f => reqs.filter (fun r => matchesFilters parseDate regexTest f r)

end FilterEvaluator

/-! ## Transformation pipeline (`transform`, lines 54–85, 268–359) -/

/-- The `ETLTransformation` DTO: the step `type` is kept as its runtime string (the
engine's `switch` has a throwing default for anything outside the five known
kinds, and the HTTP routes pass job payloads through unvalidated). -/
structure ETLTransformation where
  id : String
  type : String
  config : JObj
  enabled : Bool
  order : Int

-- Ascending comparison used by `.sort((a, b) => a.order - b.order)`.
def stepLE (a b : ETLTransformation) : Prop := a.order ≤ b.order

instance : DecidableRel stepLE := fun a b => inferInstanceAs (Decidable (a.order ≤ b.order))

/-- Test for `undefined` (`!== undefined`). -/
def JValue.isUndef : JValue → Bool
  | jundef => true
  | _ => false

/-- Test for `null` (`!== null`). -/
def JValue.isNull : JValue → Bool
  | jnull => true
  | _ => false

/-- Object spread `{...acc, ...v}`: an object contributes its properties in
order; `undefined`/`null` contribute nothing.  (Spreading a string or array
into an object literal — never done by the engine on purpose — is not
modelled and also contributes nothing here.) -/
def jsSpread (acc : JObj) : JValue → JObj
  | jobj ps => ps.foldl (fun o p => setProp o p.1 p.2) acc
  | _ => acc

/-- Model of `filterTransformation` (lines 287–296): the guard is JS truthiness of
`config.field` and `config.value`, not mere presence. -/
def filterTransformation (data : List JObj) (config : JObj) : List JObj :=
  data.filter fun item =>
    if jsTruthy (getProp config "field") && jsTruthy (getProp config "value") then
      jsStrictEq (getProp item (jsToPropKey (getProp config "field"))) (getProp config "value")
    else true

/-- The body of `mapTransformation`'s loop for one `(oldField → newField)`
pair: copy when the old field's value is not `undefined`, then delete it. -/
def mapOnePair (m : JObj) (oldF : String) (newV : JValue) : JObj :=
  if (getProp m oldF).isUndef then m
  else delProp (setProp m (jsToPropKey newV) (getProp m oldF)) oldF

/-- Model of `mapTransformation` (lines 298–315): `Object.entries(config.fieldMappings)`
iterated in property order when `fieldMappings` is a (truthy) object. -/
def mapTransformation (data : List JObj) (config : JObj) : List JObj :=
  data.map fun item =>
    match getProp config "fieldMappings" with
    | jobj pairs => pairs.foldl (fun m p => mapOnePair m p.1 p.2) item
    | _ => item

/-- JS `Map` key lookup uses SameValueZero; on the primitive keys the engine
groups by it coincides with strict equality. -/
def jsSameValueZero (a b : JValue) : Bool := jsStrictEq a b

/-- One step `groups.get(key).push(item)` with `groups.set(key, [])` on a fresh key:
insertion order of first occurrence is preserved, later members append. -/
def groupInsert (gs : List (JValue × List JObj)) (k : JValue) (item : JObj) :
    List (JValue × List JObj) :=
  match gs with
  | [] => [(k, [item])]
  | (k', xs) :: rest =>
    if jsSameValueZero k' k then (k', xs ++ [item]) :: rest
    else (k', xs) :: groupInsert rest k item

/-- The grouping loop of `aggregateTransformation` (lines 320–328). -/
def groupFold (data : List JObj) (key : String) : List (JValue × List JObj) :=
  data.foldl (fun gs item => groupInsert gs (getProp item key) item) []

/-- Model of `aggregateTransformation` (lines 317–338): guarded by JS truthiness of
`config.groupBy`; the summary literal always carries an `items` property,
whose value is `undefined` unless `config.includeItems` is truthy. -/
def aggregateTransformation (data : List JObj) (config : JObj) : List JObj :=
  if jsTruthy (getProp config "groupBy") then
    let key := jsToPropKey (getProp config "groupBy")
    (groupFold data key).map fun g =>
      [(key, g.1), ("count", jnum g.2.length),
       ("items", if jsTruthy (getProp config "includeItems")
                 then jarr (g.2.map JValue.jobj) else jundef)]
  else data

/-- Model of `enrichTransformation` (lines 340–347): `now` stands for the
`new Date().toISOString()` stamp. -/
def enrichTransformation (now : Nat) (data : List JObj) (config : JObj) : List JObj :=
  data.map fun item =>
    setProp (jsSpread item (getProp config "additionalFields")) "enrichedAt"
      (jstr (toString now))

/-- Model of `validateTransformation` (lines 349–359) for a well-typed (array or
absent) `requiredFields`, matching every use the engine receives. -/
def validateTransformation (data : List JObj) (config : JObj) : List JObj :=
  data.filter fun item =>
    match getProp config "requiredFields" with
    | jarr fs => fs.all fun fv =>
        !(getProp item (jsToPropKey fv)).isUndef && !(getProp item (jsToPropKey fv)).isNull
    | _ => true

/-- Model of `applyTransformation` (lines 269–284): dispatch on the step type; the
default branch throws. -/
def applyTransformation (now : Nat) (data : List JObj) (t : ETLTransformation) :
    Except String (List JObj) :=
  match t.type with
  | "filter" => .ok (filterTransformation data t.config)
  | "map" => .ok (mapTransformation data t.config)
  | "aggregate" => .ok (aggregateTransformation data t.config)
  | "enrich" => .ok (enrichTransformation now data t.config)
  | "validate" => .ok (validateTransformation data t.config)
  | ty => .error ("Unknown transformation type: " ++ ty)

/-- Lines 69–71: `transformations.filter(t => t.enabled).sort((a, b) =>
a.order - b.order)`.  JS `sort` is stable, embedded as the stable
`insertionSort`. -/
def pipelineSteps (ts : List ETLTransformation) : List ETLTransformation :=
  (ts.filter (fun t => t.enabled)).insertionSort stepLE

/-- The `for`-loop of `transform` (lines 73–81): each failure aborts and
re-raises. -/
def runSteps (now : Nat) (data : List JObj) : List ETLTransformation → Except String (List JObj)
  | [] => .ok data
  | t :: rest => do
    let d ← applyTransformation now data t
    runSteps now d rest

/-- Model of `transform` (lines 55–85): absent or empty step lists return the data
unchanged; otherwise the enabled steps run in stable ascending `order`. -/
def transform (now : Nat) (data : List JObj) :
    Option (List ETLTransformation) → Except String (List JObj)
  | none => .ok data
  | some ts =>
    if ts.length = 0 then .ok data
    else runSteps now data (pipelineSteps ts)

/-! ## Destination loader (`load`, lines 88–123, 361–410) -/

/-- The `ETLDestination` DTO: `type` is the runtime string. -/
structure ETLDestination where
  type : String
  config : JObj

section Loader

-- Oracle for one `fetch(config.url, {...})` sent by `loadToWebhook`
-- (resolves to `.ok` or rejects with an error message).
variable (fetchItem : JValue → JValue → JObj → Except String Unit)

-- Oracle for the single `fetch` issued by `loadToAPI` on the whole set.
variable (fetchAll : JValue → JValue → List JObj → Except String Unit)

/-- Default `config.method || "POST"` (JS falsy-default). -/
def cfgMethod (config : JObj) : JValue :=
  if jsTruthy (getProp config "method") then getProp config "method" else jstr "POST"

/-- Model of `loadToWebhook` (lines 362–379): one sequential call per record; the
first rejection aborts the remaining sends. -/
def loadToWebhook (config : JObj) : List JObj → Except String Unit
  | [] => .ok ()
  | item :: rest => do
    fetchItem (getProp config "url") (cfgMethod config) item
    loadToWebhook config rest

/-- Model of `loadToAPI` (lines 395–410): a single call carrying the whole set. -/
def loadToAPI (config : JObj) (data : List JObj) : Except String Unit :=
  fetchAll (getProp config "url") (cfgMethod config) data

/-- Model of `load` (lines 88–123): no destination is a successful no-op; `file` and
`email` only log; anything outside the four wired types throws. -/
def load (data : List JObj) : Option ETLDestination → Except String Unit
  | none => .ok ()
  | some d =>
    match d.type with
    | "webhook" => loadToWebhook fetchItem d.config data
    | "file" => .ok ()
    | "email" => .ok ()
    | "api" => loadToAPI fetchAll d.config data
    | ty => .error ("Unsupported destination type: " ++ ty)

end Loader

/-! ## Extract phase and job lifecycle (`extract`, `executeJob`, `cancelJob`) -/

/-- The slice of `WebhookConfig` the engine reads (`getAllWebhookConfigs`
items; only `id` is consumed, by `getRequests(config.id, 1000)`). -/
structure WebhookConfig where
  id : String
  url : String := ""
  requestCount : Nat := 0
  isActive : Bool := true
deriving Repr, DecidableEq

/-- Assoc-list read, for the engine's `Map` of jobs. -/
def lookupEntry {α : Type} : List (String × α) → String → Option α
  | [], _ => none
  | (k', v) :: rest, k => if k' = k then some v else lookupEntry rest k

/-- Assoc-list write (`Map.set`): overwrite in place, else append. -/
def setEntry {α : Type} : List (String × α) → String → α → List (String × α)
  | [], k, v => [(k, v)]
  | (k', v') :: rest, k, v =>
    if k' = k then (k', v) :: rest else (k', v') :: setEntry rest k v

/-- The `ETLProgress` DTO. -/
structure ETLProgress where
  totalRecords : Nat
  processedRecords : Nat
  successfulRecords : Nat
  failedRecords : Nat
  percentage : Nat
  currentPhase : String
deriving Repr, DecidableEq

/-- The `ETLJobDTO` record, with `status` kept as its runtime string and ISO timestamp
strings modelled by `Nat` clock values. -/
structure ETLJobDTO where
  id : String
  name : String := ""
  type : String := "full"
  status : String := "pending"
  webhookId : Option String := none
  filters : Option ETLFilters := none
  transformations : Option (List ETLTransformation) := none
  destination : Option ETLDestination := none
  createdAt : Nat := 0
  startedAt : Option Nat := none
  completedAt : Option Nat := none
  progress : Option ETLProgress := none
  error : Option String := none

/-- The engine's mutable state: the `jobs` map and the `activeJobs` set.
`cancelJob` and the phase bookkeeping of `executeJob` mutate the same job
object through the map entry (the `Map` stores the reference `executeJob`
holds), so the map entry is the single source of truth here. -/
structure EngineState where
  jobs : List (String × ETLJobDTO)
  activeJobs : List String

/-- The `WebhookRequest` object as the untyped record the pipeline receives
(property order follows the TS interface declaration). -/
def reqToJObj (r : WebhookRequest) : JObj :=
  [("id", jstr r.id), ("webhookId", jstr r.webhookId), ("method", jstr r.method),
   ("path", jstr r.path),
   ("headers", jobj (r.headers.map (fun p => (p.1, jstr p.2)))),
   ("body", jstr r.body),
   ("queryParams", jobj (r.queryParams.map (fun p => (p.1, jstr p.2)))),
   ("timestamp", jdate r.timestamp),
   ("ip", (r.ip.map jstr).getD jundef),
   ("userAgent", (r.userAgent.map jstr).getD jundef),
   ("contentType", (r.contentType.map jstr).getD jundef),
   ("bodySize", jnum r.bodySize)]

section Lifecycle

-- Storage oracle `storageManager.getRequests(webhookId, limit)`; a rejected
-- promise is `.error`.
variable (getRequests : String → Nat → Except String (List WebhookRequest))

-- Storage oracle `storageManager.getAllWebhookConfigs()`.
variable (getAllWebhookConfigs : Except String (List WebhookConfig))

variable (parseDate : String → Option Int)
variable (regexTest : String → String → Bool)
variable (fetchItem : JValue → JValue → JObj → Except String Unit)
variable (fetchAll : JValue → JValue → List JObj → Except String Unit)

/-- The `for (const config of configs)` accumulation loop of `extract`
(lines 36–40): each endpoint is read with the fixed limit `1000`. -/
def gatherAll : List WebhookConfig → Except String (List WebhookRequest)
  | [] => .ok []
  | c :: rest => do
    let rs ← getRequests c.id 1000
    let more ← gatherAll rest
    .ok (rs ++ more)

/-- The all-endpoints branch of `extract` (lines 35–41): one limit-`1000`
read per configured endpoint. -/
def extractUnscoped : Except String (List WebhookRequest) := do
  let configs ← getAllWebhookConfigs
  gatherAll getRequests configs

/-- Model of `extract` (lines 23–52): the guard `if (filters?.webhookId)` is
a JS truthiness test, so an absent **or empty** `webhookId` takes the
all-endpoints branch, while a truthy id is read scoped with limit `1000`;
the result is then passed through `applyFilters`.  Storage failures re-raise. -/
def extractPhase (fs : Option ETLFilters) : Except String (List WebhookRequest) := do
  let all ← match fs.bind ETLFilters.webhookId with
    | some wid =>
      if wid = "" then extractUnscoped getRequests getAllWebhookConfigs
      else getRequests wid 1000
    | none => extractUnscoped getRequests getAllWebhookConfigs
  .ok (applyFilters parseDate regexTest all fs)

/-- Point update of one job through its map entry. -/
def updJob (st : EngineState) (id : String) (f : ETLJobDTO → ETLJobDTO) : EngineState :=
  { st with jobs := st.jobs.map (fun p => if p.1 = id then (p.1, f p.2) else p) }

/-- Point update of one job's `progress` record (present throughout a run). -/
def updProgress (st : EngineState) (id : String) (f : ETLProgress → ETLProgress) :
    EngineState :=
  updJob st id (fun j => { j with progress := j.progress.map f })

/-- Model of `executeJob` lines 129–151, the synchronous prologue up to the first
`await`: the active-set guard throws before any mutation; otherwise the job
turns `running` with a reset progress record, enters the map, and the id
joins the active set. -/
def execPrologue (st : EngineState) (job : ETLJobDTO) (t0 : Nat) :
    Except String EngineState :=
  if st.activeJobs.contains job.id then
    .error ("Job " ++ job.id ++ " is already running")
  else
    let j := { job with
      status := "running"
      startedAt := some t0
      progress := some ⟨0, 0, 0, 0, 0, "extract"⟩ }
    .ok ⟨setEntry st.jobs job.id j, st.activeJobs ++ [job.id]⟩

/-- Lines 153–156: after extract resolves, `totalRecords` and the next
phase label are written before the transform `await`. -/
def noteExtract (st : EngineState) (id : String) (n : Nat) : EngineState :=
  updProgress st id (fun p => { p with totalRecords := n, currentPhase := "transform" })

/-- Lines 158–161: after transform resolves. -/
def noteTransform (st : EngineState) (id : String) (n : Nat) : EngineState :=
  updProgress st id (fun p => { p with processedRecords := n, currentPhase := "load" })

/-- Lines 163–181 on the success path: the terminal write plus the `finally`
bookkeeping (active-set removal; the `jobs.set` is the aliased no-op). -/
def finishOk (st : EngineState) (id : String) (n : Nat) (t : Nat) : EngineState :=
  let st1 := updJob st id (fun j =>
    { j with
      status := "completed"
      completedAt := some t
      progress := j.progress.map (fun p =>
        { p with
          successfulRecords := n
          percentage := 100
          currentPhase := "completed" }) })
  { st1 with activeJobs := st1.activeJobs.filter (fun x => x ≠ id) }

/-- Lines 172–181, the `catch` of any phase error plus the `finally`. -/
def failJob (st : EngineState) (id : String) (msg : String) (t : Nat) : EngineState :=
  let st1 := updJob st id (fun j =>
    { j with
      status := "failed"
      error := some msg
      completedAt := some t })
  { st1 with activeJobs := st1.activeJobs.filter (fun x => x ≠ id) }

/-- Model of `executeJob` (lines 126–183) as a whole run: the returned list collects
the engine state at every suspension boundary (each phase `await`) plus the
terminal state; the `Except` is what the returned promise settles to.
`t0`/`tEnd` are the start/termination clock stamps and `tNow` feeds
`enrich`. -/
def executeJobRun (st : EngineState) (job : ETLJobDTO) (t0 tNow tEnd : Nat) :
    List EngineState × EngineState × Except String Unit :=
  match execPrologue st job t0 with
  | .error e => ([], st, .error e)
  | .ok st1 =>
    match extractPhase getRequests getAllWebhookConfigs parseDate regexTest job.filters with
    | .error e =>
      let stF := failJob st1 job.id e tEnd
      ([st1, stF], stF, .error e)
    | .ok recs =>
      let st2 := noteExtract st1 job.id recs.length
      match transform tNow (recs.map reqToJObj) job.transformations with
      | .error e =>
        let stF := failJob st2 job.id e tEnd
        ([st1, st2, stF], stF, .error e)
      | .ok recs2 =>
        let st3 := noteTransform st2 job.id recs2.length
        match load fetchItem fetchAll recs2 job.destination with
        | .error e =>
          let stF := failJob st3 job.id e tEnd
          ([st1, st2, st3, stF], stF, .error e)
        | .ok _ =>
          let stC := finishOk st3 job.id recs2.length tEnd
          ([st1, st2, st3, stC], stC, .ok ())

end Lifecycle

/-- Model of `cancelJob` (lines 421–431): succeeds only for a job that exists and is
active; it stamps `cancelled`/`completedAt` on the shared job object and
removes the id from the active set. -/
def cancelJob (st : EngineState) (jobId : String) (t : Nat) : EngineState × Bool :=
  match lookupEntry st.jobs jobId with
  | some job =>
    if st.activeJobs.contains jobId then
      let j := { job with status := "cancelled", completedAt := some t }
      (⟨setEntry st.jobs jobId j, st.activeJobs.filter (fun x => x ≠ jobId)⟩, true)
    else (st, false)
  | none => (st, false)

/-- Model of `getJob` (lines 413–415). -/
def getJob (st : EngineState) (jobId : String) : Option ETLJobDTO :=
  lookupEntry st.jobs jobId

/-- Model of `isJobRunning` (lines 433–435). -/
def isJobRunning (st : EngineState) (jobId : String) : Bool :=
  st.activeJobs.contains jobId

/-! ## Theorems -/

/-- C5: for every record set, `load` with no destination is a successful
no-op, and `load` with a `database` destination — or any type outside
webhook/file/email/api — raises the explicit unsupported-destination error,
for every behaviour of the outbound-call oracles. -/
theorem C5_load_noop_and_unsupported
    (fetchItem : JValue → JValue → JObj → Except String Unit)
    (fetchAll : JValue → JValue → List JObj → Except String Unit)
    (data : List JObj) (cfg : JObj) :
    load fetchItem fetchAll data none = .ok () ∧
    load fetchItem fetchAll data (some ⟨"database", cfg⟩) =
      .error "Unsupported destination type: database" ∧
    ∀ ty : String, ty ≠ "webhook" → ty ≠ "file" → ty ≠ "email" → ty ≠ "api" →
      load fetchItem fetchAll data (some ⟨ty, cfg⟩) =
        .error ("Unsupported destination type: " ++ ty) := by
  refine ⟨rfl, rfl, ?_⟩
  intro ty h1 h2 h3 h4
  simp only [load]

/-- C5 witness: the unsupported-type branch evaluated at the concrete type
`"s3"`. -/
theorem C5_witness :
    ("s3" : String) ≠ "webhook" ∧ ("s3" : String) ≠ "api" ∧
    load (fun _ _ _ => .ok ()) (fun _ _ _ => .ok ()) [] (some ⟨"s3", []⟩) =
      .error ("Unsupported destination type: " ++ "s3") :=
  ⟨by decide, by decide,
   (C5_load_noop_and_unsupported (fun _ _ _ => .ok ()) (fun _ _ _ => .ok ()) [] []).2.2
     "s3" (by decide) (by decide) (by decide) (by decide)⟩

-- Concrete data for the C7 counterexample: both `config.field` and
-- `config.value` are present, but `config.value` is the empty string, which
-- is falsy — so the engine keeps every record even though the record's field
-- differs from the configured value.
def c7rec : JObj := [("method", jstr "GET")]

def c7cfg : JObj := [("field", jstr "method"), ("value", jstr "")]

/-- C7 counterexample: with `config = {field:"method", value:""}` (both keys
present) and the record `{method:"GET"}`, the claim says the record is kept
iff `record.method === ""`, i.e. dropped; the code keeps it, because the
guard `config.field && config.value` tests truthiness, not presence. -/
theorem C7_counterexample :
    getProp c7cfg "field" = jstr "method" ∧
    getProp c7cfg "value" = jstr "" ∧
    jsStrictEq (getProp c7rec "method") (getProp c7cfg "value") = false ∧
    filterTransformation [c7rec] c7cfg = [c7rec] :=
  ⟨rfl, rfl, rfl, rfl⟩

/-- C7 amended: a filter-type transform step keeps a record iff
`record[config.field] === config.value` when both `config.field` and
`config.value` are truthy; when either is absent **or falsy**, every record
is kept. -/
theorem C7_filter_step_amended (data : List JObj) (config : JObj) :
    (jsTruthy (getProp config "field") = true →
     jsTruthy (getProp config "value") = true →
      filterTransformation data config = data.filter (fun item =>
        jsStrictEq (getProp item (jsToPropKey (getProp config "field")))
          (getProp config "value"))) ∧
    (jsTruthy (getProp config "field") = false ∨
     jsTruthy (getProp config "value") = false →
      filterTransformation data config = data) := by
  constructor
  · intro h1 h2
    simp [filterTransformation, h1, h2]
  · intro h
    rcases h with h | h <;> simp [filterTransformation, h]

/-- C7 witness: the amended behaviour evaluated at `config =
{field:"f", value:1}` on two records. -/
theorem C7_witness :
    jsTruthy (getProp [("field", jstr "f"), ("value", jnum 1)] "field") = true ∧
    jsTruthy (getProp [("field", jstr "f"), ("value", jnum 1)] "value") = true ∧
    filterTransformation [[("f", jnum 1)], [("f", jnum 2)]]
        [("field", jstr "f"), ("value", jnum 1)] =
      ([[("f", jnum 1)], [("f", jnum 2)]] : List JObj).filter (fun item =>
        jsStrictEq (getProp item (jsToPropKey
          (getProp [("field", jstr "f"), ("value", jnum 1)] "field")))
          (getProp [("field", jstr "f"), ("value", jnum 1)] "value")) :=
  ⟨rfl, rfl,
   (C7_filter_step_amended [[("f", jnum 1)], [("f", jnum 2)]]
      [("field", jstr "f"), ("value", jnum 1)]).1 rfl rfl⟩

/-- C1: the filter evaluator is a conjunction of the seven optional
sub-predicates — a record survives `applyFilters` iff every present
sub-predicate passes (absent ones are vacuously true) — and the method
sub-predicate passes every record whenever `methods` is absent or the empty
list. -/
theorem C1_filter_conjunction (pd : String → Option Int) (rt : String → String → Bool)
    (f : ETLFilters) (r : WebhookRequest) (reqs : List WebhookRequest) :
    matchesFilters pd rt f r =
      (datePasses pd f r && methodPasses f r && contentTypePasses f r && ipPasses f r &&
       userAgentPasses f r && bodyPasses f r && headerPasses rt f r) ∧
    (r ∈ applyFilters pd rt reqs (some f) ↔
      (r ∈ reqs ∧ datePasses pd f r = true ∧ methodPasses f r = true ∧
       contentTypePasses f r = true ∧ ipPasses f r = true ∧ userAgentPasses f r = true ∧
       bodyPasses f r = true ∧ headerPasses rt f r = true)) ∧
    methodPasses { f with methods := none } r = true ∧
    methodPasses { f with methods := some [] } r = true := by
  have hconj : matchesFilters pd rt f r =
      (datePasses pd f r && methodPasses f r && contentTypePasses f r && ipPasses f r &&
       userAgentPasses f r && bodyPasses f r && headerPasses rt f r) := by
    simp only [matchesFilters]
    cases datePasses pd f r <;> cases methodPasses f r <;> cases contentTypePasses f r <;>
      cases ipPasses f r <;> cases userAgentPasses f r <;> cases bodyPasses f r <;>
      cases headerPasses rt f r <;> rfl
  refine ⟨hconj, ?_, rfl, rfl⟩
  simp [applyFilters, List.mem_filter, hconj, and_assoc]

-- Concrete data for the C6 counterexample: the start bound is unparsable
-- (NaN), the end bound parses to 100, and the record's timestamp is 200.
def c6parse : String → Option Int := fun s => if s = "iso-start" then none else some 100

def c6range : DateRange := ⟨"iso-start", "iso-end"⟩

def c6filters : ETLFilters := { dateRange := some c6range }

def c6req : WebhookRequest :=
  ⟨"r1", "w1", "GET", "/", [], "", [], 200, none, none, none, 0⟩

/-- C6 counterexample: with a malformed (NaN) start bound but a well-formed
end bound of 100, the record stamped 200 is **excluded** — the claim's
"when a bound is malformed the date predicate is treated as always-matching"
fails: only the malformed bound's own comparison is vacuous, the other bound
still filters. -/
theorem C6_counterexample :
    c6parse c6range.start = none ∧
    datePasses c6parse c6filters c6req = false ∧
    matchesFilters c6parse (fun _ _ => false) c6filters c6req = false ∧
    applyFilters c6parse (fun _ _ => false) [c6req] (some c6filters) = [] :=
  ⟨rfl, rfl, rfl, rfl⟩

/-- C6 amended: with both bounds well-formed the date predicate is the
inclusive range check `start ≤ timestamp ≤ end`; a malformed bound makes its
own comparison vacuously pass (and never raises), so the record matches iff
the remaining well-formed bound's check passes — in particular when **both**
bounds are malformed the date predicate always matches. -/
theorem C6_date_range_amended (pd : String → Option Int) (f : ETLFilters)
    (dr : DateRange) (r : WebhookRequest) (hdr : f.dateRange = some dr) :
    (∀ s e, pd dr.start = some s → pd dr.endD = some e →
      (datePasses pd f r = true ↔ (s ≤ r.timestamp ∧ r.timestamp ≤ e))) ∧
    (pd dr.start = none → pd dr.endD = none → datePasses pd f r = true) ∧
    (∀ e, pd dr.start = none → pd dr.endD = some e →
      (datePasses pd f r = true ↔ r.timestamp ≤ e)) ∧
    (∀ s, pd dr.start = some s → pd dr.endD = none →
      (datePasses pd f r = true ↔ s ≤ r.timestamp)) := by
  refine ⟨?_, ?_, ?_, ?_⟩
  · intro s e hs he
    simp_all [datePasses, hdr, jsLtOpt, jsGtOpt]
  · intro hs he
    simp_all [datePasses, hdr, jsLtOpt, jsGtOpt]
  · intro e hs he
    simp_all [datePasses, hdr, jsLtOpt, jsGtOpt]
  · intro s hs he
    simp_all [datePasses, hdr, jsLtOpt, jsGtOpt]

/-- C6 witness: the inclusive-range reading applied at concrete bounds
`[50, 50]` and timestamp 200. -/
theorem C6_witness :
    (datePasses (fun _ => some 50) c6filters c6req = true ↔
      ((50 : Int) ≤ c6req.timestamp ∧ c6req.timestamp ≤ 50)) ∧
    datePasses (fun _ => some 50) c6filters c6req = false :=
  ⟨(C6_date_range_amended (fun _ => some 50) c6filters c6range c6req rfl).1 50 50 rfl rfl,
   rfl⟩

instance : IsTotal ETLTransformation stepLE :=
  ⟨fun a b => Int.le_total a.order b.order⟩

instance : IsTrans ETLTransformation stepLE :=
  ⟨fun _ _ _ hab hbc => le_trans hab hbc⟩

/-- C3: the pipeline drops disabled steps entirely, runs the remaining steps
in ascending `order` with ties broken by original relative position (the
executed sequence is a permutation of the enabled steps, sorted, and its
restriction to any fixed `order` value is exactly the enabled steps with that
value in their original sequence), and the `[2,1,3]`-with-3-disabled example
executes order 1 then order 2. -/
theorem C3_pipeline_order (now : Nat) (data : List JObj) (ts : List ETLTransformation) :
    (∀ t ∈ pipelineSteps ts, t.enabled = true) ∧
    (pipelineSteps ts).Perm (ts.filter (fun t => t.enabled)) ∧
    (pipelineSteps ts).Pairwise stepLE ∧
    (∀ k : Int, (pipelineSteps ts).filter (fun t => t.order == k) =
        (ts.filter (fun t => t.enabled)).filter (fun t => t.order == k)) ∧
    transform now data (some ts) = runSteps now data (pipelineSteps ts) ∧
    transform now data (some ts) =
      transform now data (some (ts.filter (fun t => t.enabled))) ∧
    pipelineSteps [⟨"s1", "filter", [], true, 2⟩, ⟨"s2", "map", [], true, 1⟩,
        ⟨"s3", "validate", [], false, 3⟩] =
      [⟨"s2", "map", [], true, 1⟩, ⟨"s1", "filter", [], true, 2⟩] := by
  have hperm : (pipelineSteps ts).Perm (ts.filter (fun t => t.enabled)) :=
    List.perm_insertionSort stepLE _
  have htrans : ∀ l : List ETLTransformation,
      transform now data (some l) = runSteps now data (pipelineSteps l) := by
    intro l
    by_cases hl : l.length = 0
    · rw [List.length_eq_zero] at hl
      subst hl
      rfl
    · simp [transform, hl]
  have hfilterfix : (ts.filter (fun t => t.enabled)).filter (fun t => t.enabled) =
      ts.filter (fun t => t.enabled) :=
    List.filter_eq_self.mpr (fun a ha => (List.mem_filter.mp ha).2)
  refine ⟨?_, hperm, List.sorted_insertionSort stepLE _, ?_, htrans ts, ?_, rfl⟩
  · intro t ht
    have := hperm.mem_iff.mp ht
    exact (List.mem_filter.mp this).2
  · intro k
    set E := ts.filter (fun t => t.enabled) with hE
    set c := E.filter (fun t => t.order == k) with hc
    have hmemc : ∀ t ∈ c, t.order = k := by
      intro t ht
      have := (List.mem_filter.mp ht).2
      exact eq_of_beq this
    have hpair : c.Pairwise stepLE := by
      apply List.pairwise_of_forall_mem_list
      intro a ha b hb
      have h1 := hmemc a ha
      have h2 := hmemc b hb
      simp [stepLE, h1, h2]
    have hsubE : List.Sublist c E := List.filter_sublist _
    have h1 : List.Sublist c (pipelineSteps ts) := List.sublist_insertionSort hpair hsubE
    have hcc : c.filter (fun t => t.order == k) = c :=
      List.filter_eq_self.mpr (fun a ha => (List.mem_filter.mp ha).2)
    have h2 : List.Sublist c ((pipelineSteps ts).filter (fun t => t.order == k)) := by
      have := h1.filter (fun t => t.order == k)
      rwa [hcc] at this
    have h3 : ((pipelineSteps ts).filter (fun t => t.order == k)).Perm c :=
      hperm.filter _
    exact (h2.eq_of_length h3.length_eq.symm).symm
  · rw [htrans ts, htrans (ts.filter (fun t => t.enabled))]
    unfold pipelineSteps
    rw [hfilterfix]

/-! ## Grouping lemmas for `aggregateTransformation` -/

/-- A primitive JS value (strict equality is structural exactly there). -/
def isPrimitive : JValue → Bool
  | jundef => true
  | jnull => true
  | jbool _ => true
  | jnum _ => true
  | jstr _ => true
  | _ => false

theorem jsStrictEq_eq {a b : JValue} (h : jsStrictEq a b = true) : a = b := by
  cases a <;> cases b <;> simp_all [jsStrictEq]

theorem jsStrictEq_symm (a b : JValue) : jsStrictEq a b = jsStrictEq b a := by
  cases a <;> cases b <;> simp [jsStrictEq, eq_comm]

theorem jsStrictEq_refl {a : JValue} (h : isPrimitive a = true) :
    jsStrictEq a a = true := by
  cases a <;> simp_all [jsStrictEq, isPrimitive]

/-- Membership test `groups.has(key)` of the Map in `aggregateTransformation`. -/
def hasKey (gs : List (JValue × List JObj)) (k : JValue) : Bool :=
  gs.any (fun grp => jsSameValueZero grp.1 k)

/-- First-occurrence deduplication of a key sequence, relative to the keys
already `seen`: the spec-side description of the `Map`'s key order. -/
def dedupFirstAux (seen : List JValue) : List JValue → List JValue
  | [] => []
  | k :: rest =>
    if seen.any (fun k2 => jsSameValueZero k2 k) then dedupFirstAux seen rest
    else k :: dedupFirstAux (seen ++ [k]) rest

theorem groupInsert_keys (gs : List (JValue × List JObj)) (k : JValue) (r : JObj) :
    (groupInsert gs k r).map Prod.fst =
      if hasKey gs k then gs.map Prod.fst else gs.map Prod.fst ++ [k] := by
  induction gs with
  | nil => simp [groupInsert, hasKey]
  | cons hd tl ih =>
    obtain ⟨k9, xs⟩ := hd
    have hany : hasKey ((k9, xs) :: tl) k = (jsSameValueZero k9 k || hasKey tl k) := by
      simp [hasKey]
    cases hsv : jsSameValueZero k9 k with
    | true => simp [groupInsert, hsv, hany]
    | false =>
      simp only [groupInsert, hsv, Bool.false_eq_true, if_false, List.map_cons, ih, hany,
        Bool.false_or]
      cases ht : hasKey tl k with
      | true => simp
      | false => simp

theorem groupInsert_mem_keys {gs : List (JValue × List JObj)} {k : JValue} {r : JObj}
    {grp : JValue × List JObj} (h : grp ∈ groupInsert gs k r) :
    grp.1 ∈ gs.map Prod.fst ∨ grp.1 = k := by
  have h1 : grp.1 ∈ (groupInsert gs k r).map Prod.fst := List.mem_map_of_mem _ h
  rw [groupInsert_keys] at h1
  by_cases hk : hasKey gs k = true
  · rw [if_pos hk] at h1
    exact Or.inl h1
  · rw [if_neg hk] at h1
    rcases List.mem_append.mp h1 with h2 | h2
    · exact Or.inl h2
    · exact Or.inr (by simpa using h2)

theorem hasKey_eq_any_keys (gs : List (JValue × List JObj)) (k2 : JValue) :
    hasKey gs k2 = (gs.map Prod.fst).any (fun a => jsSameValueZero a k2) := by
  induction gs with
  | nil => rfl
  | cons hd tl ih =>
    simp only [hasKey, List.any_cons, List.map_cons] at ih ⊢
    rw [ih]

theorem hasKey_groupInsert_of {gs : List (JValue × List JObj)} {k2 k : JValue} {r : JObj}
    (h : hasKey gs k2 = true) : hasKey (groupInsert gs k r) k2 = true := by
  rw [hasKey_eq_any_keys, groupInsert_keys]
  rw [hasKey_eq_any_keys] at h
  by_cases hk : hasKey gs k = true
  · rw [if_pos hk]
    exact h
  · rw [if_neg hk]
    simp only [List.any_append, h, Bool.true_or]

theorem hasKey_groupInsert_self {gs : List (JValue × List JObj)} {k : JValue} {r : JObj}
    (hk : isPrimitive k = true) : hasKey (groupInsert gs k r) k = true := by
  rw [hasKey_eq_any_keys, groupInsert_keys]
  by_cases hh : hasKey gs k = true
  · rw [if_pos hh]
    rw [hasKey_eq_any_keys] at hh
    exact hh
  · rw [if_neg hh]
    simp only [List.any_append, Bool.or_eq_true]
    right
    simp [jsStrictEq_refl hk, jsSameValueZero]

theorem groupInsert_pairwise {gs : List (JValue × List JObj)} {k : JValue} {r : JObj}
    (hdist : gs.Pairwise (fun a b => jsSameValueZero a.1 b.1 = false)) :
    (groupInsert gs k r).Pairwise (fun a b => jsSameValueZero a.1 b.1 = false) := by
  induction gs with
  | nil => simp [groupInsert]
  | cons hd0 tl ih =>
    obtain ⟨k9, xs⟩ := hd0
    rw [List.pairwise_cons] at hdist
    obtain ⟨hhead, htl⟩ := hdist
    cases hsv : jsSameValueZero k9 k with
    | true =>
      simp only [groupInsert, hsv, if_true]
      exact List.pairwise_cons.mpr ⟨hhead, htl⟩
    | false =>
      simp only [groupInsert, hsv, Bool.false_eq_true, if_false]
      refine List.pairwise_cons.mpr ⟨?_, ih htl⟩
      intro b hb
      rcases groupInsert_mem_keys hb with h2 | h2
      · obtain ⟨a, hmem, heq⟩ := List.mem_map.mp h2
        have h3 := hhead a hmem
        rw [← heq]
        exact h3
      · rw [h2]
        exact hsv

theorem groupInsert_contents (g : String) (pre : List JObj)
    {gs : List (JValue × List JObj)} (r : JObj)
    (hk : isPrimitive (getProp r g) = true)
    (hdist : gs.Pairwise (fun a b => jsSameValueZero a.1 b.1 = false))
    (hc : ∀ grp ∈ gs, grp.2 = pre.filter (fun x => jsSameValueZero grp.1 (getProp x g)))
    (hfresh : hasKey gs (getProp r g) = false →
      ∀ x ∈ pre, jsSameValueZero (getProp r g) (getProp x g) = false) :
    ∀ grp ∈ groupInsert gs (getProp r g) r,
      grp.2 = (pre ++ [r]).filter (fun x => jsSameValueZero grp.1 (getProp x g)) := by
  induction gs with
  | nil =>
    intro grp hgrp
    simp only [groupInsert, List.mem_singleton] at hgrp
    subst hgrp
    have hpre : pre.filter (fun x => jsSameValueZero (getProp r g) (getProp x g)) = [] := by
      rw [List.filter_eq_nil_iff]
      intro x hx
      have := hfresh (by simp [hasKey]) x hx
      simp [this]
    rw [List.filter_append, hpre]
    simp [jsSameValueZero, jsStrictEq_refl hk]
  | cons hd0 tl ih =>
    obtain ⟨k9, xs⟩ := hd0
    rw [List.pairwise_cons] at hdist
    obtain ⟨hhead, htl⟩ := hdist
    intro grp hgrp
    cases hsv : jsSameValueZero k9 (getProp r g) with
    | true =>
      have hk9 : k9 = getProp r g := jsStrictEq_eq hsv
      rw [groupInsert, hsv, if_pos rfl] at hgrp
      rcases List.mem_cons.mp hgrp with h2 | h2
      · subst h2
        have hx := hc (k9, xs) (List.mem_cons_self _ _)
        simp only at hx
        rw [List.filter_append, ← hx]
        simp [List.filter_cons, hsv]
      · have hx := hc grp (List.mem_cons_of_mem _ h2)
        rw [List.filter_append, ← hx]
        have hno : jsSameValueZero grp.1 (getProp r g) = false := by
          have h3 := hhead grp h2
          rw [← hk9, jsSameValueZero, jsStrictEq_symm]
          exact h3
        simp [hno]
    | false =>
      rw [groupInsert, hsv] at hgrp
      simp only [Bool.false_eq_true, if_false] at hgrp
      rcases List.mem_cons.mp hgrp with h2 | h2
      · subst h2
        have hx := hc (k9, xs) (List.mem_cons_self _ _)
        simp only at hx
        rw [List.filter_append, ← hx]
        simp [List.filter_cons, hsv]
      · refine ih htl (fun grp2 hgrp2 => hc grp2 (List.mem_cons_of_mem _ hgrp2)) ?_ grp h2
        intro hnk x hx
        refine hfresh ?_ x hx
        simp [hasKey, hsv]
        simp [hasKey] at hnk
        intro a b hab
        exact hnk a b hab

theorem groupFold_invariant (g : String) (data : List JObj) :
    ∀ (pre : List JObj) (gs : List (JValue × List JObj)),
    (∀ r ∈ data, isPrimitive (getProp r g) = true) →
    gs.Pairwise (fun a b => jsSameValueZero a.1 b.1 = false) →
    (∀ grp ∈ gs, grp.2 = pre.filter (fun x => jsSameValueZero grp.1 (getProp x g))) →
    (∀ x ∈ pre, hasKey gs (getProp x g) = true) →
    (data.foldl (fun gs item => groupInsert gs (getProp item g) item) gs).Pairwise
        (fun a b => jsSameValueZero a.1 b.1 = false) ∧
    (∀ grp ∈ data.foldl (fun gs item => groupInsert gs (getProp item g) item) gs,
      grp.2 = (pre ++ data).filter (fun x => jsSameValueZero grp.1 (getProp x g))) ∧
    (∀ x ∈ pre ++ data,
      hasKey (data.foldl (fun gs item => groupInsert gs (getProp item g) item) gs)
        (getProp x g) = true) := by
  induction data with
  | nil =>
    intro pre gs _ hdist hc hcomp
    rw [List.foldl_nil, List.append_nil]
    exact ⟨hdist, hc, hcomp⟩
  | cons r rest ih =>
    intro pre gs hprim hdist hc hcomp
    have hkr : isPrimitive (getProp r g) = true := hprim r (List.mem_cons_self _ _)
    have hfresh : hasKey gs (getProp r g) = false →
        ∀ x ∈ pre, jsSameValueZero (getProp r g) (getProp x g) = false := by
      intro hnk x hx
      cases hsvx : jsSameValueZero (getProp r g) (getProp x g) with
      | false => rfl
      | true =>
        have hkeq : getProp r g = getProp x g := jsStrictEq_eq hsvx
        have := hcomp x hx
        rw [← hkeq] at this
        rw [this] at hnk
        exact absurd hnk (by simp)
    have hdist' := groupInsert_pairwise (k := getProp r g) (r := r) hdist
    have hc' := groupInsert_contents g pre r hkr hdist hc hfresh
    have hcomp' : ∀ x ∈ pre ++ [r],
        hasKey (groupInsert gs (getProp r g) r) (getProp x g) = true := by
      intro x hx
      rcases List.mem_append.mp hx with hx2 | hx2
      · exact hasKey_groupInsert_of (hcomp x hx2)
      · have : x = r := by simpa using hx2
        subst this
        exact hasKey_groupInsert_self hkr
    have hrec := ih (pre ++ [r]) (groupInsert gs (getProp r g) r)
      (fun r2 hr2 => hprim r2 (List.mem_cons_of_mem _ hr2)) hdist' hc' hcomp'
    have happ : (pre ++ [r]) ++ rest = pre ++ r :: rest := by
      rw [List.append_assoc, List.singleton_append]
    rw [happ] at hrec
    simpa [List.foldl_cons] using hrec

theorem groupFold_keys_aux (g : String) (data : List JObj) :
    ∀ gs : List (JValue × List JObj),
    (data.foldl (fun gs item => groupInsert gs (getProp item g) item) gs).map Prod.fst =
      gs.map Prod.fst ++
        dedupFirstAux (gs.map Prod.fst) (data.map (fun r => getProp r g)) := by
  induction data with
  | nil => simp [dedupFirstAux]
  | cons r rest ih =>
    intro gs
    have hbridge : hasKey gs (getProp r g) =
        (gs.map Prod.fst).any (fun k2 => jsSameValueZero k2 (getProp r g)) :=
      hasKey_eq_any_keys gs (getProp r g)
    simp only [List.foldl_cons, List.map_cons, dedupFirstAux]
    rw [ih (groupInsert gs (getProp r g) r), groupInsert_keys]
    cases hk : hasKey gs (getProp r g) with
    | true =>
      rw [if_pos rfl]
      rw [hbridge] at hk
      rw [if_pos hk]
    | false =>
      rw [if_neg (by simp)]
      rw [hbridge] at hk
      rw [if_neg (by simp [hk])]
      rw [List.append_assoc, List.singleton_append]

/-- The `Map`'s key sequence in `aggregateTransformation` is exactly the
first-occurrence deduplication of the records' `groupBy` values. -/
theorem groupFold_keys (g : String) (data : List JObj) :
    (groupFold data g).map Prod.fst =
      dedupFirstAux [] (data.map (fun r => getProp r g)) := by
  have := groupFold_keys_aux g data []
  simpa [groupFold] using this

-- Concrete data for the C4 counterexample: `config.groupBy` is present but
-- set to the empty string, which is falsy.
def c4rec : JObj := [("", jstr "GET")]

def c4cfg : JObj := [("groupBy", jstr "")]

/-- C4 counterexample: with `config.groupBy` set (present) but equal to the
falsy empty string, the claim says the step partitions by the `""` field and
emits a summary record; the code passes the input through unchanged, because
the guard `if (config.groupBy)` tests truthiness, not presence. -/
theorem C4_counterexample :
    getProp c4cfg "groupBy" = jstr "" ∧
    aggregateTransformation [c4rec] c4cfg = [c4rec] ∧
    aggregateTransformation [c4rec] c4cfg ≠
      [[("", jstr "GET"), ("count", jnum 1), ("items", jundef)]] :=
  ⟨rfl, rfl, fun h => by
    have h2 : ([[("", jstr "GET")]] : List JObj) =
        [[("", jstr "GET"), ("count", jnum 1), ("items", jundef)]] := h
    simp at h2⟩

/-- C4 amended: an aggregate step whose `config.groupBy` is a **truthy**
string `g` (and whose records carry primitive `g`-values, where JS `Map` key
equality is structural) partitions the records by their `g`-value — one
group per distinct value, in first-occurrence order, each group holding
exactly the records with that value in input order — and emits one summary
record per group `{[g]: key, count: size, items}` where the `items` property
reads back as the group's members when `config.includeItems` is truthy and
as `undefined` otherwise; when `config.groupBy` is absent **or falsy** the
step returns its input unchanged.  The claim's GET/GET/POST example yields
the two summaries with counts 2 and 1. -/
theorem C4_aggregate_amended (data : List JObj) (config : JObj) (g : String)
    (hG : getProp config "groupBy" = jstr g) (hg : g ≠ "")
    (hprim : ∀ r ∈ data, isPrimitive (getProp r g) = true) :
    aggregateTransformation data config =
      (groupFold data g).map (fun grp =>
        [(g, grp.1), ("count", jnum grp.2.length),
         ("items", if jsTruthy (getProp config "includeItems")
                   then jarr (grp.2.map JValue.jobj) else jundef)]) ∧
    (groupFold data g).Pairwise (fun a b => jsSameValueZero a.1 b.1 = false) ∧
    (∀ grp ∈ groupFold data g,
      grp.2 = data.filter (fun x => jsSameValueZero grp.1 (getProp x g))) ∧
    (∀ x ∈ data, hasKey (groupFold data g) (getProp x g) = true) ∧
    (groupFold data g).map Prod.fst =
      dedupFirstAux [] (data.map (fun r => getProp r g)) ∧
    (aggregateTransformation data config).length = (groupFold data g).length ∧
    (∀ (cfg2 : JObj) (data2 : List JObj), jsTruthy (getProp cfg2 "groupBy") = false →
      aggregateTransformation data2 cfg2 = data2) ∧
    aggregateTransformation
        [[("method", jstr "GET")], [("method", jstr "GET")], [("method", jstr "POST")]]
        [("groupBy", jstr "method")] =
      [[("method", jstr "GET"), ("count", jnum 2), ("items", jundef)],
       [("method", jstr "POST"), ("count", jnum 1), ("items", jundef)]] := by
  have hT : jsTruthy (getProp config "groupBy") = true := by
    rw [hG]
    simp [jsTruthy, hg]
  have hkey : jsToPropKey (getProp config "groupBy") = g := by
    rw [hG]
    rfl
  have hagg : aggregateTransformation data config =
      (groupFold data g).map (fun grp =>
        [(g, grp.1), ("count", jnum grp.2.length),
         ("items", if jsTruthy (getProp config "includeItems")
                   then jarr (grp.2.map JValue.jobj) else jundef)]) := by
    simp only [aggregateTransformation, hT, hkey, if_true]
  have hinv := groupFold_invariant g data [] [] hprim List.Pairwise.nil
    (by intro grp h; cases h) (by intro x h; cases h)
  rw [List.nil_append] at hinv
  obtain ⟨hdist, hc, hcomp⟩ := hinv
  refine ⟨hagg, hdist, hc, hcomp, groupFold_keys g data, ?_, ?_, rfl⟩
  · rw [hagg, List.length_map]
  · intro cfg2 data2 h
    simp [aggregateTransformation, h]

def c4data : List JObj :=
  [[("method", jstr "GET")], [("method", jstr "GET")], [("method", jstr "POST")]]

def c4cfgM : JObj := [("groupBy", jstr "method")]

/-- C4 witness: the amended aggregate behaviour applied at the claim's
GET/GET/POST example with `groupBy = "method"`. -/
theorem C4_witness :
    getProp c4cfgM "groupBy" = jstr "method" ∧
    ("method" : String) ≠ "" ∧
    aggregateTransformation c4data c4cfgM =
      (groupFold c4data "method").map (fun grp =>
        [("method", grp.1), ("count", jnum grp.2.length),
         ("items", if jsTruthy (getProp c4cfgM "includeItems")
                   then jarr (grp.2.map JValue.jobj) else jundef)]) :=
  ⟨rfl, by decide,
   (C4_aggregate_amended c4data c4cfgM "method" rfl (by decide)
     (by
       intro r hr
       simp only [c4data, List.mem_cons, List.not_mem_nil, or_false] at hr
       rcases hr with rfl | rfl | rfl <;> rfl)).1⟩

/-! ## Job-map bookkeeping lemmas -/

theorem lookupEntry_setEntry_self {α : Type} (m : List (String × α)) (k : String) (v : α) :
    lookupEntry (setEntry m k v) k = some v := by
  induction m with
  | nil => simp [setEntry, lookupEntry]
  | cons hd tl ih =>
    obtain ⟨k9, v9⟩ := hd
    by_cases h : k9 = k
    · simp [setEntry, lookupEntry, h]
    · simp [setEntry, lookupEntry, h, ih]

theorem lookupEntry_setEntry_other {α : Type} (m : List (String × α)) {k k2 : String}
    (v : α) (h : k2 ≠ k) : lookupEntry (setEntry m k v) k2 = lookupEntry m k2 := by
  induction m with
  | nil => simp [setEntry, lookupEntry, Ne.symm h]
  | cons hd tl ih =>
    obtain ⟨k9, v9⟩ := hd
    by_cases h9 : k9 = k
    · subst h9
      simp [setEntry, lookupEntry, Ne.symm h]
    · simp [setEntry, lookupEntry, h9, ih]

theorem lookupEntry_updMap_self {α : Type} (m : List (String × α)) (id : String)
    (f : α → α) :
    lookupEntry (m.map (fun p => if p.1 = id then (p.1, f p.2) else p)) id =
      (lookupEntry m id).map f := by
  induction m with
  | nil => simp [lookupEntry]
  | cons hd tl ih =>
    obtain ⟨k9, v9⟩ := hd
    rw [List.map_cons]
    dsimp only
    by_cases h : k9 = id
    · subst h
      rw [if_pos rfl]
      simp [lookupEntry, ih]
    · rw [if_neg h]
      simp [lookupEntry, h, ih]

theorem lookupEntry_updMap_other {α : Type} (m : List (String × α)) {id k2 : String}
    (f : α → α) (h : k2 ≠ id) :
    lookupEntry (m.map (fun p => if p.1 = id then (p.1, f p.2) else p)) k2 =
      lookupEntry m k2 := by
  induction m with
  | nil => simp [lookupEntry]
  | cons hd tl ih =>
    obtain ⟨k9, v9⟩ := hd
    rw [List.map_cons]
    dsimp only
    by_cases h9 : k9 = id
    · subst h9
      rw [if_pos rfl]
      simp [lookupEntry, Ne.symm h, ih]
    · rw [if_neg h9]
      by_cases h2 : k9 = k2
      · simp [lookupEntry, h2]
      · simp [lookupEntry, h2, ih]

theorem getJob_updJob_self (st : EngineState) (id : String) (f : ETLJobDTO → ETLJobDTO) :
    getJob (updJob st id f) id = (getJob st id).map f :=
  lookupEntry_updMap_self st.jobs id f

theorem getJob_updJob_other (st : EngineState) {id k2 : String} (f : ETLJobDTO → ETLJobDTO)
    (h : k2 ≠ id) : getJob (updJob st id f) k2 = getJob st k2 :=
  lookupEntry_updMap_other st.jobs f h

theorem filter_ne_of_not_contains {l : List String} {id : String}
    (h : l.contains id = false) : l.filter (fun x => x ≠ id) = l := by
  have hmem : ¬ id ∈ l := by
    simp only [List.contains, List.elem_eq_mem, decide_eq_false_iff_not] at h
    exact h
  rw [List.filter_eq_self]
  intro x hx
  simp only [ne_eq, decide_eq_true_eq]
  intro hxid
  subst hxid
  exact hmem hx

theorem getJob_failJob_self (st0 : EngineState) (id : String) (msg : String) (t : Nat) :
    getJob (failJob st0 id msg t) id =
      (getJob st0 id).map (fun j =>
        { j with status := "failed", error := some msg, completedAt := some t }) :=
  getJob_updJob_self st0 id
    (fun j => { j with status := "failed", error := some msg, completedAt := some t })

theorem getJob_failJob_other (st0 : EngineState) {id k : String} (msg : String) (t : Nat)
    (h : k ≠ id) : getJob (failJob st0 id msg t) k = getJob st0 k :=
  getJob_updJob_other st0
    (fun j => { j with status := "failed", error := some msg, completedAt := some t }) h

theorem failJob_activeJobs (st0 : EngineState) (id : String) (msg : String) (t : Nat) :
    (failJob st0 id msg t).activeJobs = st0.activeJobs.filter (fun x => x ≠ id) := rfl

theorem getJob_noteExtract_self (st0 : EngineState) (id : String) (n : Nat) :
    getJob (noteExtract st0 id n) id =
      (getJob st0 id).map (fun j =>
        { j with progress := j.progress.map (fun p =>
            { p with totalRecords := n, currentPhase := "transform" }) }) :=
  getJob_updJob_self st0 id
    (fun j => { j with progress := j.progress.map (fun p =>
      { p with totalRecords := n, currentPhase := "transform" }) })

theorem getJob_noteExtract_other (st0 : EngineState) {id k : String} (n : Nat)
    (h : k ≠ id) : getJob (noteExtract st0 id n) k = getJob st0 k :=
  getJob_updJob_other st0
    (fun j => { j with progress := j.progress.map (fun p =>
      { p with totalRecords := n, currentPhase := "transform" }) }) h

theorem getJob_noteTransform_self (st0 : EngineState) (id : String) (n : Nat) :
    getJob (noteTransform st0 id n) id =
      (getJob st0 id).map (fun j =>
        { j with progress := j.progress.map (fun p =>
            { p with processedRecords := n, currentPhase := "load" }) }) :=
  getJob_updJob_self st0 id
    (fun j => { j with progress := j.progress.map (fun p =>
      { p with processedRecords := n, currentPhase := "load" }) })

theorem getJob_noteTransform_other (st0 : EngineState) {id k : String} (n : Nat)
    (h : k ≠ id) : getJob (noteTransform st0 id n) k = getJob st0 k :=
  getJob_updJob_other st0
    (fun j => { j with progress := j.progress.map (fun p =>
      { p with processedRecords := n, currentPhase := "load" }) }) h

theorem getJob_finishOk_self (st0 : EngineState) (id : String) (n : Nat) (t : Nat) :
    getJob (finishOk st0 id n t) id =
      (getJob st0 id).map (fun j =>
        { j with
          status := "completed"
          completedAt := some t
          progress := j.progress.map (fun p =>
            { p with
              successfulRecords := n
              percentage := 100
              currentPhase := "completed" }) }) :=
  getJob_updJob_self st0 id
    (fun j =>
      { j with
        status := "completed"
        completedAt := some t
        progress := j.progress.map (fun p =>
          { p with
            successfulRecords := n
            percentage := 100
            currentPhase := "completed" }) })

theorem getJob_finishOk_other (st0 : EngineState) {id k : String} (n : Nat) (t : Nat)
    (h : k ≠ id) : getJob (finishOk st0 id n t) k = getJob st0 k :=
  getJob_updJob_other st0
    (fun j =>
      { j with
        status := "completed"
        completedAt := some t
        progress := j.progress.map (fun p =>
          { p with
            successfulRecords := n
            percentage := 100
            currentPhase := "completed" }) }) h

theorem finishOk_activeJobs (st0 : EngineState) (id : String) (n : Nat) (t : Nat) :
    (finishOk st0 id n t).activeJobs = st0.activeJobs.filter (fun x => x ≠ id) := rfl

theorem noteExtract_activeJobs (st0 : EngineState) (id : String) (n : Nat) :
    (noteExtract st0 id n).activeJobs = st0.activeJobs := rfl

theorem noteTransform_activeJobs (st0 : EngineState) (id : String) (n : Nat) :
    (noteTransform st0 id n).activeJobs = st0.activeJobs := rfl

/-- C2: for every job execution in which some phase (extract, transform or
load) fails — under arbitrary storage/network/parsing oracles — `executeJob`
marks exactly that job `failed` with the error message and a `completedAt`
stamp, removes the id from the active set, re-raises the error to its
caller, and leaves every other job's map entry and active-set membership
untouched. -/
theorem C2_phase_error_handling
    (getRequests : String → Nat → Except String (List WebhookRequest))
    (getAllWebhookConfigs : Except String (List WebhookConfig))
    (parseDate : String → Option Int) (regexTest : String → String → Bool)
    (fetchItem : JValue → JValue → JObj → Except String Unit)
    (fetchAll : JValue → JValue → List JObj → Except String Unit)
    (st : EngineState) (job : ETLJobDTO) (t0 tNow tEnd : Nat) (e : String)
    (h0 : st.activeJobs.contains job.id = false)
    (hFail :
      extractPhase getRequests getAllWebhookConfigs parseDate regexTest job.filters =
          .error e ∨
      (∃ recs,
        extractPhase getRequests getAllWebhookConfigs parseDate regexTest job.filters =
          .ok recs ∧
        transform tNow (recs.map reqToJObj) job.transformations = .error e) ∨
      (∃ recs recs2,
        extractPhase getRequests getAllWebhookConfigs parseDate regexTest job.filters =
          .ok recs ∧
        transform tNow (recs.map reqToJObj) job.transformations = .ok recs2 ∧
        load fetchItem fetchAll recs2 job.destination = .error e)) :
    (executeJobRun getRequests getAllWebhookConfigs parseDate regexTest fetchItem fetchAll
        st job t0 tNow tEnd).2.2 = .error e ∧
    (∃ jf, getJob (executeJobRun getRequests getAllWebhookConfigs parseDate regexTest
        fetchItem fetchAll st job t0 tNow tEnd).2.1 job.id = some jf ∧
      jf.status = "failed" ∧ jf.error = some e ∧ jf.completedAt = some tEnd) ∧
    isJobRunning (executeJobRun getRequests getAllWebhookConfigs parseDate regexTest
        fetchItem fetchAll st job t0 tNow tEnd).2.1 job.id = false ∧
    (executeJobRun getRequests getAllWebhookConfigs parseDate regexTest fetchItem fetchAll
        st job t0 tNow tEnd).2.1.activeJobs = st.activeJobs ∧
    (∀ k, k ≠ job.id →
      getJob (executeJobRun getRequests getAllWebhookConfigs parseDate regexTest
        fetchItem fetchAll st job t0 tNow tEnd).2.1 k = getJob st k) := by
  set jR : ETLJobDTO :=
    { job with
      status := "running"
      startedAt := some t0
      progress := some ⟨0, 0, 0, 0, 0, "extract"⟩ } with hjR
  set st1 : EngineState := ⟨setEntry st.jobs job.id jR, st.activeJobs ++ [job.id]⟩ with hst1
  have hcontains : ¬ st.activeJobs.contains job.id = true := by
    rw [h0]
    simp
  have hpro : execPrologue st job t0 = .ok st1 := by
    rw [execPrologue, if_neg hcontains]
  have hactive1 : st1.activeJobs.filter (fun x => x ≠ job.id) = st.activeJobs := by
    rw [hst1]
    simp only [List.filter_append, filter_ne_of_not_contains h0]
    simp
  have hj1 : getJob st1 job.id = some jR := lookupEntry_setEntry_self st.jobs job.id jR
  have hother1 : ∀ k, k ≠ job.id → getJob st1 k = getJob st k := by
    intro k hk
    exact lookupEntry_setEntry_other st.jobs jR hk
  have hfailspec : ∀ st2 : EngineState, ∀ j2, getJob st2 job.id = some j2 →
      st2.activeJobs = st1.activeJobs →
      (∀ k, k ≠ job.id → getJob st2 k = getJob st k) →
      (∃ jf, getJob (failJob st2 job.id e tEnd) job.id = some jf ∧
        jf.status = "failed" ∧ jf.error = some e ∧ jf.completedAt = some tEnd) ∧
      isJobRunning (failJob st2 job.id e tEnd) job.id = false ∧
      (failJob st2 job.id e tEnd).activeJobs = st.activeJobs ∧
      (∀ k, k ≠ job.id → getJob (failJob st2 job.id e tEnd) k = getJob st k) := by
    intro st2 j2 hj2 hact hoth
    have hactF : (failJob st2 job.id e tEnd).activeJobs = st.activeJobs := by
      rw [failJob_activeJobs, hact, hactive1]
    refine ⟨?_, ?_, hactF, ?_⟩
    · refine ⟨{ j2 with status := "failed", error := some e, completedAt := some tEnd },
        ?_, rfl, rfl, rfl⟩
      rw [getJob_failJob_self, hj2]
      rfl
    · rw [isJobRunning, hactF]
      exact h0
    · intro k hk
      rw [getJob_failJob_other st2 e tEnd hk]
      exact hoth k hk
  rcases hFail with hE | ⟨recs, hE, hT⟩ | ⟨recs, recs2, hE, hT, hL⟩
  · have hrun : executeJobRun getRequests getAllWebhookConfigs parseDate regexTest
        fetchItem fetchAll st job t0 tNow tEnd =
        ([st1, failJob st1 job.id e tEnd], failJob st1 job.id e tEnd, .error e) := by
      simp only [executeJobRun, hpro, hE]
    rw [hrun]
    obtain ⟨ha, hb, hc, hd⟩ := hfailspec st1 jR hj1 rfl hother1
    exact ⟨rfl, ha, hb, hc, hd⟩
  · have hrun : executeJobRun getRequests getAllWebhookConfigs parseDate regexTest
        fetchItem fetchAll st job t0 tNow tEnd =
        ([st1, noteExtract st1 job.id recs.length,
          failJob (noteExtract st1 job.id recs.length) job.id e tEnd],
         failJob (noteExtract st1 job.id recs.length) job.id e tEnd, .error e) := by
      simp only [executeJobRun, hpro, hE, hT]
    rw [hrun]
    have hj2 : getJob (noteExtract st1 job.id recs.length) job.id =
        some ({ jR with progress := jR.progress.map (fun p =>
          { p with totalRecords := recs.length, currentPhase := "transform" }) }) := by
      rw [getJob_noteExtract_self, hj1]
      rfl
    obtain ⟨ha, hb, hc, hd⟩ := hfailspec (noteExtract st1 job.id recs.length) _ hj2
      (noteExtract_activeJobs st1 job.id recs.length)
      (fun k hk => by
        rw [getJob_noteExtract_other st1 recs.length hk]
        exact hother1 k hk)
    exact ⟨rfl, ha, hb, hc, hd⟩
  · have hrun : executeJobRun getRequests getAllWebhookConfigs parseDate regexTest
        fetchItem fetchAll st job t0 tNow tEnd =
        ([st1, noteExtract st1 job.id recs.length,
          noteTransform (noteExtract st1 job.id recs.length) job.id recs2.length,
          failJob (noteTransform (noteExtract st1 job.id recs.length) job.id recs2.length)
            job.id e tEnd],
         failJob (noteTransform (noteExtract st1 job.id recs.length) job.id recs2.length)
           job.id e tEnd, .error e) := by
      simp only [executeJobRun, hpro, hE, hT, hL]
    rw [hrun]
    have hj2 : getJob (noteExtract st1 job.id recs.length) job.id =
        some ({ jR with progress := jR.progress.map (fun p =>
          { p with totalRecords := recs.length, currentPhase := "transform" }) }) := by
      rw [getJob_noteExtract_self, hj1]
      rfl
    have hj3 : ∃ j3, getJob (noteTransform (noteExtract st1 job.id recs.length) job.id
        recs2.length) job.id = some j3 := by
      rw [getJob_noteTransform_self, hj2]
      exact ⟨_, rfl⟩
    obtain ⟨j3, hj3⟩ := hj3
    obtain ⟨ha, hb, hc, hd⟩ := hfailspec _ j3 hj3
      (by rw [noteTransform_activeJobs, noteExtract_activeJobs])
      (fun k hk => by
        rw [getJob_noteTransform_other _ recs2.length hk,
          getJob_noteExtract_other st1 recs.length hk]
        exact hother1 k hk)
    exact ⟨rfl, ha, hb, hc, hd⟩

def c2job : ETLJobDTO := { id := "j1", filters := some { webhookId := some "w" } }

def c2st : EngineState := ⟨[], []⟩

def c2get : String → Nat → Except String (List WebhookRequest) := fun _ _ => .error "boom"

/-- C2 witness: a concrete run whose extract phase rejects with `"boom"`: the
error is re-raised and the job is no longer active. -/
theorem C2_witness :
    (executeJobRun c2get (.ok []) (fun _ => none) (fun _ _ => false) (fun _ _ _ => .ok ())
        (fun _ _ _ => .ok ()) c2st c2job 1 2 3).2.2 = .error "boom" ∧
    isJobRunning (executeJobRun c2get (.ok []) (fun _ => none) (fun _ _ => false)
        (fun _ _ _ => .ok ()) (fun _ _ _ => .ok ()) c2st c2job 1 2 3).2.1 "j1" = false := by
  have h := C2_phase_error_handling c2get (.ok []) (fun _ => none) (fun _ _ => false)
    (fun _ _ _ => .ok ()) (fun _ _ _ => .ok ()) c2st c2job 1 2 3 "boom" rfl (Or.inl rfl)
  exact ⟨h.1, h.2.2.1⟩

/-- The observable `progress.percentage` of one job (0 when the job or its
progress record is missing). -/
def jobPct (st : EngineState) (id : String) : Nat :=
  ((getJob st id).bind (fun j => j.progress.map (fun p => p.percentage))).getD 0

/-- Status/phase consistency of one job in one engine state: `running`
implies the progress phase is one of the three active phases. -/
def statusPhaseConsistent (st : EngineState) (id : String) : Prop :=
  ∀ j, getJob st id = some j → j.status = "running" →
    ∃ p, j.progress = some p ∧
      (p.currentPhase = "extract" ∨ p.currentPhase = "transform" ∨
       p.currentPhase = "load")

/-- C8: at every suspension boundary of a run (the states in the run's
trace), a `running` status coexists only with `currentPhase ∈
{extract, transform, load}`, and `progress.percentage` is monotonically
non-decreasing along the trace — for arbitrary oracle behaviour. -/
theorem C8_status_phase_and_monotone_percentage
    (getRequests : String → Nat → Except String (List WebhookRequest))
    (getAllWebhookConfigs : Except String (List WebhookConfig))
    (parseDate : String → Option Int) (regexTest : String → String → Bool)
    (fetchItem : JValue → JValue → JObj → Except String Unit)
    (fetchAll : JValue → JValue → List JObj → Except String Unit)
    (st : EngineState) (job : ETLJobDTO) (t0 tNow tEnd : Nat)
    (h0 : st.activeJobs.contains job.id = false) :
    (∀ s ∈ (executeJobRun getRequests getAllWebhookConfigs parseDate regexTest fetchItem
        fetchAll st job t0 tNow tEnd).1, statusPhaseConsistent s job.id) ∧
    List.Pairwise (fun a b => jobPct a job.id ≤ jobPct b job.id)
      (executeJobRun getRequests getAllWebhookConfigs parseDate regexTest fetchItem
        fetchAll st job t0 tNow tEnd).1 := by
  have hcontains : ¬ st.activeJobs.contains job.id = true := by
    rw [h0]
    simp
  have hpro : execPrologue st job t0 =
      .ok ⟨setEntry st.jobs job.id
        ({ job with
           status := "running"
           startedAt := some t0
           progress := some ⟨0, 0, 0, 0, 0, "extract"⟩ }), st.activeJobs ++ [job.id]⟩ := by
    rw [execPrologue, if_neg hcontains]
  set jR : ETLJobDTO :=
    { job with
      status := "running"
      startedAt := some t0
      progress := some ⟨0, 0, 0, 0, 0, "extract"⟩ } with hjRdef
  set st1 : EngineState := ⟨setEntry st.jobs job.id jR, st.activeJobs ++ [job.id]⟩
    with hst1def
  have hj1 : getJob st1 job.id = some jR := lookupEntry_setEntry_self st.jobs job.id jR
  have con1 : statusPhaseConsistent st1 job.id := by
    intro j hj _
    rw [hj1] at hj
    obtain rfl := Option.some.inj hj
    exact ⟨_, rfl, Or.inl rfl⟩
  have con2 : ∀ n, statusPhaseConsistent (noteExtract st1 job.id n) job.id := by
    intro n j hj _
    rw [getJob_noteExtract_self, hj1] at hj
    obtain rfl := Option.some.inj hj
    exact ⟨_, rfl, Or.inr (Or.inl rfl)⟩
  have con3 : ∀ n m,
      statusPhaseConsistent (noteTransform (noteExtract st1 job.id n) job.id m) job.id := by
    intro n m j hj _
    rw [getJob_noteTransform_self, getJob_noteExtract_self, hj1] at hj
    obtain rfl := Option.some.inj hj
    exact ⟨_, rfl, Or.inr (Or.inr rfl)⟩
  have conFail : ∀ (st2 : EngineState) (j2 : ETLJobDTO) (msg : String) (t : Nat),
      getJob st2 job.id = some j2 →
      statusPhaseConsistent (failJob st2 job.id msg t) job.id := by
    intro st2 j2 msg t hj2 j hj hst
    rw [getJob_failJob_self, hj2] at hj
    obtain rfl := Option.some.inj hj
    simp at hst
  have conFin : ∀ (st2 : EngineState) (j2 : ETLJobDTO) (n t : Nat),
      getJob st2 job.id = some j2 →
      statusPhaseConsistent (finishOk st2 job.id n t) job.id := by
    intro st2 j2 n t hj2 j hj hst
    rw [getJob_finishOk_self, hj2] at hj
    obtain rfl := Option.some.inj hj
    simp at hst
  have hj2 : ∀ n, getJob (noteExtract st1 job.id n) job.id =
      some ({ jR with progress := some ⟨n, 0, 0, 0, 0, "transform"⟩ }) := by
    intro n
    rw [getJob_noteExtract_self, hj1]
    rfl
  have hj3 : ∀ n m, getJob (noteTransform (noteExtract st1 job.id n) job.id m) job.id =
      some ({ jR with progress := some ⟨n, m, 0, 0, 0, "load"⟩ }) := by
    intro n m
    rw [getJob_noteTransform_self, hj2 n]
    rfl
  have pct1 : jobPct st1 job.id = 0 := by
    rw [jobPct, hj1]
    rfl
  have pct2 : ∀ n, jobPct (noteExtract st1 job.id n) job.id = 0 := by
    intro n
    rw [jobPct, hj2 n]
    rfl
  have pct3 : ∀ n m, jobPct (noteTransform (noteExtract st1 job.id n) job.id m) job.id
      = 0 := by
    intro n m
    rw [jobPct, hj3 n m]
    rfl
  cases hE : extractPhase getRequests getAllWebhookConfigs parseDate regexTest job.filters
    with
  | error e =>
    have hrun : executeJobRun getRequests getAllWebhookConfigs parseDate regexTest
        fetchItem fetchAll st job t0 tNow tEnd =
        ([st1, failJob st1 job.id e tEnd], failJob st1 job.id e tEnd, .error e) := by
      simp only [executeJobRun, hpro, hE]
    rw [hrun]
    constructor
    · intro s hs
      simp only [List.mem_cons, List.not_mem_nil, or_false] at hs
      rcases hs with rfl | rfl
      · exact con1
      · exact conFail st1 jR e tEnd hj1
    · refine List.pairwise_cons.mpr ⟨?_, List.pairwise_singleton _ _⟩
      intro b hb
      rw [List.mem_singleton] at hb
      subst hb
      rw [pct1]
      exact Nat.zero_le _
  | ok recs =>
    cases hT : transform tNow (recs.map reqToJObj) job.transformations with
    | error e =>
      have hrun : executeJobRun getRequests getAllWebhookConfigs parseDate regexTest
          fetchItem fetchAll st job t0 tNow tEnd =
          ([st1, noteExtract st1 job.id recs.length,
            failJob (noteExtract st1 job.id recs.length) job.id e tEnd],
           failJob (noteExtract st1 job.id recs.length) job.id e tEnd, .error e) := by
        simp only [executeJobRun, hpro, hE, hT]
      rw [hrun]
      constructor
      · intro s hs
        simp only [List.mem_cons, List.not_mem_nil, or_false] at hs
        rcases hs with rfl | rfl | rfl
        · exact con1
        · exact con2 _
        · exact conFail _ _ e tEnd (hj2 recs.length)
      · refine List.pairwise_cons.mpr ⟨?_, List.pairwise_cons.mpr
          ⟨?_, List.pairwise_singleton _ _⟩⟩
        · intro b _
          rw [pct1]
          exact Nat.zero_le _
        · intro b _
          rw [pct2]
          exact Nat.zero_le _
    | ok recs2 =>
      cases hL : load fetchItem fetchAll recs2 job.destination with
      | error e =>
        have hrun : executeJobRun getRequests getAllWebhookConfigs parseDate regexTest
            fetchItem fetchAll st job t0 tNow tEnd =
            ([st1, noteExtract st1 job.id recs.length,
              noteTransform (noteExtract st1 job.id recs.length) job.id recs2.length,
              failJob (noteTransform (noteExtract st1 job.id recs.length) job.id
                recs2.length) job.id e tEnd],
             failJob (noteTransform (noteExtract st1 job.id recs.length) job.id
               recs2.length) job.id e tEnd, .error e) := by
          simp only [executeJobRun, hpro, hE, hT, hL]
        rw [hrun]
        constructor
        · intro s hs
          simp only [List.mem_cons, List.not_mem_nil, or_false] at hs
          rcases hs with rfl | rfl | rfl | rfl
          · exact con1
          · exact con2 _
          · exact con3 _ _
          · exact conFail _ _ e tEnd (hj3 recs.length recs2.length)
        · refine List.pairwise_cons.mpr ⟨?_, List.pairwise_cons.mpr
            ⟨?_, List.pairwise_cons.mpr ⟨?_, List.pairwise_singleton _ _⟩⟩⟩
          · intro b _
            rw [pct1]
            exact Nat.zero_le _
          · intro b _
            rw [pct2]
            exact Nat.zero_le _
          · intro b _
            rw [pct3]
            exact Nat.zero_le _
      | ok u =>
        have hrun : executeJobRun getRequests getAllWebhookConfigs parseDate regexTest
            fetchItem fetchAll st job t0 tNow tEnd =
            ([st1, noteExtract st1 job.id recs.length,
              noteTransform (noteExtract st1 job.id recs.length) job.id recs2.length,
              finishOk (noteTransform (noteExtract st1 job.id recs.length) job.id
                recs2.length) job.id recs2.length tEnd],
             finishOk (noteTransform (noteExtract st1 job.id recs.length) job.id
               recs2.length) job.id recs2.length tEnd, .ok ()) := by
          simp only [executeJobRun, hpro, hE, hT, hL]
        rw [hrun]
        constructor
        · intro s hs
          simp only [List.mem_cons, List.not_mem_nil, or_false] at hs
          rcases hs with rfl | rfl | rfl | rfl
          · exact con1
          · exact con2 _
          · exact con3 _ _
          · exact conFin _ _ recs2.length tEnd (hj3 recs.length recs2.length)
        · refine List.pairwise_cons.mpr ⟨?_, List.pairwise_cons.mpr
            ⟨?_, List.pairwise_cons.mpr ⟨?_, List.pairwise_singleton _ _⟩⟩⟩
          · intro b _
            rw [pct1]
            exact Nat.zero_le _
          · intro b _
            rw [pct2]
            exact Nat.zero_le _
          · intro b _
            rw [pct3]
            exact Nat.zero_le _

/-- C8 witness: the consistency and monotonicity facts at a concrete run. -/
theorem C8_witness :
    c2st.activeJobs.contains c2job.id = false ∧
    (∀ s ∈ (executeJobRun c2get (.ok []) (fun _ => none) (fun _ _ => false)
        (fun _ _ _ => .ok ()) (fun _ _ _ => .ok ()) c2st c2job 1 2 3).1,
      statusPhaseConsistent s c2job.id) ∧
    List.Pairwise (fun a b => jobPct a c2job.id ≤ jobPct b c2job.id)
      (executeJobRun c2get (.ok []) (fun _ => none) (fun _ _ => false)
        (fun _ _ _ => .ok ()) (fun _ _ _ => .ok ()) c2st c2job 1 2 3).1 := by
  have h := C8_status_phase_and_monotone_percentage c2get (.ok []) (fun _ => none)
    (fun _ _ => false) (fun _ _ _ => .ok ()) (fun _ _ _ => .ok ()) c2st c2job 1 2 3 rfl
  exact ⟨rfl, h.1, h.2⟩

/-- C9: a successful `cancelJob` is not terminal for a still-suspended run.
For any engine state in which job `id` exists and is active (as it is while
`executeJob` is parked at a phase `await`), `cancelJob` returns `true` and
stamps `cancelled`/`completedAt := tC` — and the resumed run's terminal
write (the success path `finishOk`, lines 163–181, or the failure path
`failJob`, lines 172–181) then unconditionally overwrites the status with
`completed` (resp. `failed`) and restamps `completedAt := t2`, losing the
cancelled status and its timestamp. -/
theorem C9_cancel_overwritten_by_terminal_write
    (st : EngineState) (id : String) (j : ETLJobDTO) (tC t2 n : Nat) (msg : String)
    (hj : getJob st id = some j)
    (hact : st.activeJobs.contains id = true) :
    (cancelJob st id tC).2 = true ∧
    (∃ jc, getJob (cancelJob st id tC).1 id = some jc ∧ jc.status = "cancelled" ∧
      jc.completedAt = some tC) ∧
    (∃ jf, getJob (finishOk (cancelJob st id tC).1 id n t2) id = some jf ∧
      jf.status = "completed" ∧ jf.completedAt = some t2) ∧
    (∃ jf2, getJob (failJob (cancelJob st id tC).1 id msg t2) id = some jf2 ∧
      jf2.status = "failed" ∧ jf2.completedAt = some t2) := by
  have hlook : lookupEntry st.jobs id = some j := hj
  have hcan : cancelJob st id tC =
      (⟨setEntry st.jobs id ({ j with status := "cancelled", completedAt := some tC }),
        st.activeJobs.filter (fun x => x ≠ id)⟩, true) := by
    simp only [cancelJob, hlook, hact, if_true]
  rw [hcan]
  have hjc : getJob (⟨setEntry st.jobs id
      ({ j with status := "cancelled", completedAt := some tC }),
      st.activeJobs.filter (fun x => x ≠ id)⟩ : EngineState) id =
      some ({ j with status := "cancelled", completedAt := some tC }) :=
    lookupEntry_setEntry_self st.jobs id _
  refine ⟨rfl, ⟨_, hjc, rfl, rfl⟩, ?_, ?_⟩
  · have h2 : getJob (finishOk (⟨setEntry st.jobs id
        ({ j with status := "cancelled", completedAt := some tC }),
        st.activeJobs.filter (fun x => x ≠ id)⟩ : EngineState) id n t2) id =
        some ({ j with
          status := "completed"
          completedAt := some t2
          progress := j.progress.map (fun p =>
            { p with
              successfulRecords := n
              percentage := 100
              currentPhase := "completed" }) }) := by
      rw [getJob_finishOk_self, hjc]
      rfl
    exact ⟨_, h2, rfl, rfl⟩
  · have h2 : getJob (failJob (⟨setEntry st.jobs id
        ({ j with status := "cancelled", completedAt := some tC }),
        st.activeJobs.filter (fun x => x ≠ id)⟩ : EngineState) id msg t2) id =
        some ({ j with status := "failed", error := some msg, completedAt := some t2 }) := by
      rw [getJob_failJob_self, hjc]
      rfl
    exact ⟨_, h2, rfl, rfl⟩

def c9job : ETLJobDTO := { id := "j1", status := "running" }

def c9st : EngineState := ⟨[("j1", c9job)], ["j1"]⟩

/-- C9 witness: the cancel-then-overwrite scenario at a concrete suspended
state. -/
theorem C9_witness :
    getJob c9st "j1" = some c9job ∧
    c9st.activeJobs.contains "j1" = true ∧
    (cancelJob c9st "j1" 5).2 = true ∧
    (∃ jf, getJob (finishOk (cancelJob c9st "j1" 5).1 "j1" 3 9) "j1" = some jf ∧
      jf.status = "completed" ∧ jf.completedAt = some 9) := by
  have h := C9_cancel_overwritten_by_terminal_write c9st "j1" c9job 5 9 3 "m" rfl rfl
  exact ⟨rfl, rfl, h.1, h.2.2.1⟩

theorem gatherAll_take (stored : String → List WebhookRequest)
    (getRequests : String → Nat → Except String (List WebhookRequest))
    (hTake : ∀ wid nlim, getRequests wid nlim = .ok ((stored wid).take nlim)) :
    ∀ cfgs : List WebhookConfig,
      gatherAll getRequests cfgs =
        .ok ((cfgs.map (fun c => (stored c.id).take 1000)).flatten) := by
  intro cfgs
  induction cfgs with
  | nil => rfl
  | cons c rest ih =>
    simp only [gatherAll, hTake c.id 1000, ih, List.map_cons, List.flatten_cons]
    rfl

theorem flatten_take_length_bound (stored : String → List WebhookRequest) :
    ∀ cfgs : List WebhookConfig,
      ((cfgs.map (fun c => (stored c.id).take 1000)).flatten).length ≤
        1000 * cfgs.length := by
  intro cfgs
  induction cfgs with
  | nil => simp
  | cons c rest ih =>
    simp only [List.map_cons, List.flatten_cons, List.length_append, List.length_cons]
    have h1 : ((stored c.id).take 1000).length ≤ 1000 := List.length_take_le _ _
    omega

/-- C10: the extract phase reads at most 1000 stored records per endpoint —
`getRequests` is always called with the fixed limit 1000 — so under the
storage contract `getRequests wid n = first n stored records of wid`, the
extracted set is drawn from the first 1000 records of each endpoint: scoped
when `webhookId` is truthy (present and non-empty), per-endpoint when it is
absent or the falsy empty string; its size is bounded by 1000 (resp.
1000 × #endpoints), and a run's `progress.totalRecords` is exactly the size
of that truncated, filtered set — never counting records beyond the first
1000. -/
theorem C10_extract_limit_1000
    (stored : String → List WebhookRequest)
    (getRequests : String → Nat → Except String (List WebhookRequest))
    (getAllWebhookConfigs : Except String (List WebhookConfig))
    (cfgs : List WebhookConfig)
    (parseDate : String → Option Int) (regexTest : String → String → Bool)
    (fetchItem : JValue → JValue → JObj → Except String Unit)
    (fetchAll : JValue → JValue → List JObj → Except String Unit)
    (st : EngineState) (job : ETLJobDTO) (t0 tNow tEnd : Nat)
    (hTake : ∀ wid nlim, getRequests wid nlim = .ok ((stored wid).take nlim))
    (hCfgs : getAllWebhookConfigs = .ok cfgs) :
    (∀ (f : ETLFilters) (w : String), f.webhookId = some w → w ≠ "" →
      extractPhase getRequests getAllWebhookConfigs parseDate regexTest (some f) =
        .ok (applyFilters parseDate regexTest ((stored w).take 1000) (some f)) ∧
      (applyFilters parseDate regexTest ((stored w).take 1000) (some f)).length ≤ 1000 ∧
      ∀ r ∈ applyFilters parseDate regexTest ((stored w).take 1000) (some f),
        r ∈ (stored w).take 1000) ∧
    (∀ f : ETLFilters, f.webhookId = none ∨ f.webhookId = some "" →
      extractPhase getRequests getAllWebhookConfigs parseDate regexTest (some f) =
        .ok (applyFilters parseDate regexTest
          ((cfgs.map (fun c => (stored c.id).take 1000)).flatten) (some f)) ∧
      (applyFilters parseDate regexTest
          ((cfgs.map (fun c => (stored c.id).take 1000)).flatten) (some f)).length ≤
        1000 * cfgs.length) ∧
    (st.activeJobs.contains job.id = false →
      ∀ l, extractPhase getRequests getAllWebhookConfigs parseDate regexTest
          job.filters = .ok l →
      ∀ jf, getJob (executeJobRun getRequests getAllWebhookConfigs parseDate regexTest
          fetchItem fetchAll st job t0 tNow tEnd).2.1 job.id = some jf →
      ∀ p, jf.progress = some p → p.totalRecords = l.length) := by
  refine ⟨?_, ?_, ?_⟩
  · intro f w hw hne
    refine ⟨?_, ?_, ?_⟩
    · simp only [extractPhase, Option.bind, hw]
      rw [if_neg hne, hTake w 1000]
      rfl
    · calc (applyFilters parseDate regexTest ((stored w).take 1000) (some f)).length
          ≤ ((stored w).take 1000).length := List.length_filter_le _ _
        _ ≤ 1000 := List.length_take_le _ _
    · intro r hr
      exact List.mem_of_mem_filter hr
  · intro f hw
    refine ⟨?_, ?_⟩
    · rcases hw with hw | hw <;>
        simp only [extractPhase, extractUnscoped, Option.bind, hw, hCfgs, bind,
          Except.bind, if_pos, gatherAll_take stored getRequests hTake cfgs]
    · calc (applyFilters parseDate regexTest
            ((cfgs.map (fun c => (stored c.id).take 1000)).flatten) (some f)).length
          ≤ ((cfgs.map (fun c => (stored c.id).take 1000)).flatten).length :=
            List.length_filter_le _ _
        _ ≤ 1000 * cfgs.length := flatten_take_length_bound stored cfgs
  · intro h0 l hl jf hjf p hp
    have hcontains : ¬ st.activeJobs.contains job.id = true := by
      rw [h0]
      simp
    have hpro : execPrologue st job t0 =
        .ok ⟨setEntry st.jobs job.id
          ({ job with
             status := "running"
             startedAt := some t0
             progress := some ⟨0, 0, 0, 0, 0, "extract"⟩ }), st.activeJobs ++ [job.id]⟩ := by
      rw [execPrologue, if_neg hcontains]
    set jR : ETLJobDTO :=
      { job with
        status := "running"
        startedAt := some t0
        progress := some ⟨0, 0, 0, 0, 0, "extract"⟩ } with hjRdef
    set st1 : EngineState := ⟨setEntry st.jobs job.id jR, st.activeJobs ++ [job.id]⟩
      with hst1def
    have hj1 : getJob st1 job.id = some jR := lookupEntry_setEntry_self st.jobs job.id jR
    have hj2 : ∀ n, getJob (noteExtract st1 job.id n) job.id =
        some ({ jR with progress := some ⟨n, 0, 0, 0, 0, "transform"⟩ }) := by
      intro n
      rw [getJob_noteExtract_self, hj1]
      rfl
    have hj3 : ∀ n m, getJob (noteTransform (noteExtract st1 job.id n) job.id m) job.id =
        some ({ jR with progress := some ⟨n, m, 0, 0, 0, "load"⟩ }) := by
      intro n m
      rw [getJob_noteTransform_self, hj2 n]
      rfl
    cases hT : transform tNow (l.map reqToJObj) job.transformations with
    | error e =>
      have hrun : (executeJobRun getRequests getAllWebhookConfigs parseDate regexTest
          fetchItem fetchAll st job t0 tNow tEnd).2.1 =
          failJob (noteExtract st1 job.id l.length) job.id e tEnd := by
        simp only [executeJobRun, hpro, hl, hT]
      rw [hrun, getJob_failJob_self, hj2 l.length] at hjf
      obtain rfl := Option.some.inj hjf
      simp only at hp
      obtain rfl := Option.some.inj hp
      rfl
    | ok recs2 =>
      cases hL : load fetchItem fetchAll recs2 job.destination with
      | error e =>
        have hrun : (executeJobRun getRequests getAllWebhookConfigs parseDate regexTest
            fetchItem fetchAll st job t0 tNow tEnd).2.1 =
            failJob (noteTransform (noteExtract st1 job.id l.length) job.id recs2.length)
              job.id e tEnd := by
          simp only [executeJobRun, hpro, hl, hT, hL]
        rw [hrun, getJob_failJob_self, hj3 l.length recs2.length] at hjf
        obtain rfl := Option.some.inj hjf
        simp only at hp
        obtain rfl := Option.some.inj hp
        rfl
      | ok u =>
        have hrun : (executeJobRun getRequests getAllWebhookConfigs parseDate regexTest
            fetchItem fetchAll st job t0 tNow tEnd).2.1 =
            finishOk (noteTransform (noteExtract st1 job.id l.length) job.id recs2.length)
              job.id recs2.length tEnd := by
          simp only [executeJobRun, hpro, hl, hT, hL]
        rw [hrun, getJob_finishOk_self, hj3 l.length recs2.length] at hjf
        obtain rfl := Option.some.inj hjf
        simp only at hp
        obtain rfl := Option.some.inj hp
        rfl

def c10req : WebhookRequest := ⟨"r2", "w", "POST", "/", [], "", [], 10, none, none, none, 0⟩

def c10stored : String → List WebhookRequest := fun _ => [c10req]

def c10get : String → Nat → Except String (List WebhookRequest) :=
  fun wid nlim => .ok ((c10stored wid).take nlim)

def c10f : ETLFilters := { webhookId := some "w" }

/-- C10 witness: the scoped limit-1000 read evaluated at a concrete storage
with one stored record. -/
theorem C10_witness :
    c10get "w" 1000 = .ok ((c10stored "w").take 1000) ∧
    extractPhase c10get (.ok []) (fun _ => none) (fun _ _ => false) (some c10f) =
      .ok (applyFilters (fun _ => none) (fun _ _ => false) ((c10stored "w").take 1000)
        (some c10f)) ∧
    (applyFilters (fun _ => none) (fun _ _ => false) ((c10stored "w").take 1000)
      (some c10f)).length ≤ 1000 := by
  have h := (C10_extract_limit_1000 c10stored c10get (.ok []) [] (fun _ => none)
    (fun _ _ => false) (fun _ _ _ => .ok ()) (fun _ _ _ => .ok ()) c2st c2job 1 2 3
    (fun _ _ => rfl) rfl).1 c10f "w" rfl (by decide)
  exact ⟨rfl, h.1, h.2.1⟩
